import Mathlib

/-!
Verification of the retrieval-and-fallback orchestration pipeline of the
andrew-py RAG assistant.

The embedding translates the repository's Python sources into Lean:

* src/utils/helpers.py: the answer-sufficiency judge (is_answer_unavailable),
  the domain-relevance filter (is_cmu_africa_relevant) and the web fallback
  search (google_search).  Python's substring test (the in operator on
  strings) is embedded as an executable scan over character lists; the
  external search provider is a parameter returning the ranked organic
  result links, and extract_page_text is a parameter returning the fetched
  page text, with the empty string standing for a swallowed fetch error
  (the function catches every exception and returns "").
* src/core/bot.py: Bot.ask_question and Bot.setup_from_vectorstore.  The
  out-of-repository collaborators (registered-chain lookup, the chat model,
  the memory factory, the FAISS loader) are parameters of the environment;
  a Python exception raised by a collaborator is an Except.error value.  A
  Trace record counts the collaborator invocations of one call.
* src/core/document_processor.py: DocumentProcessor.load_sources_from_file.
  Python's split(", ") is embedded as repeated splitting at the first
  occurrence of the two-character separator.
-/

namespace AndrewPy

/-! ### Character-list primitives embedding Python string operations -/

/-- Embeds Python list/str prefix testing: true when the first list is an
initial segment of the second. -/
def isPrefixSeq : List Char → List Char → Bool
  | [], _ => true
  | _ :: _, [] => false
  | a :: as, b :: bs => a == b && isPrefixSeq as bs

/-- Embeds the Python substring operator needle in hay. -/
def containsSeq (needle : List Char) : List Char → Bool
  | [] => needle.isEmpty
  | c :: rest => isPrefixSeq needle (c :: rest) || containsSeq needle rest

/-- Embeds Python str.lower: lowercase character by character. -/
def lowerList (cs : List Char) : List Char :=
  cs.map Char.toLower

/-- Embeds the Python test needle in hay.lower() used by the keyword
heuristics: a substring scan over the lowercased characters of hay. -/
def containsLower (needle hay : String) : Bool :=
  containsSeq needle.toList (lowerList hay.toList)

/-- Embeds Python str.strip: drop leading and trailing whitespace. -/
def trimChars (cs : List Char) : List Char :=
  ((cs.dropWhile Char.isWhitespace).reverse.dropWhile Char.isWhitespace).reverse

/-! ### src/utils/helpers.py -/

/-- The keyword allow-list of is_cmu_africa_relevant
(src/utils/helpers.py lines 12-14). -/
def cmu_africa_keywords : List String :=
  ["rwanda", "kigali", "rw", "cmu-africa"]

/-- is_cmu_africa_relevant (src/utils/helpers.py lines 10-16): true when the
lowercased text contains any keyword of the allow-list as a substring. -/
def is_cmu_africa_relevant (text : String) : Bool :=
  cmu_africa_keywords.any (fun keyword => containsLower keyword text)

/-- The trigger phrases of is_answer_unavailable
(src/utils/helpers.py lines 87-99). -/
def unavailable_keywords : List String :=
  ["not available",
   "not in the context",
   "i'm sorry",
   "i am sorry",
   "no information",
   "can't answer",
   "cannot answer",
   "insufficient context",
   "don't have information",
   "unable to find",
   "the text does not provide"]

/-- is_answer_unavailable (src/utils/helpers.py lines 86-100): true when the
lowercased answer contains any trigger phrase as a substring. -/
def is_answer_unavailable (answer : String) : Bool :=
  unavailable_keywords.any (fun kw => containsLower kw answer)

/-- The fatal error raised by google_search when the credential is missing
(src/utils/helpers.py line 33). -/
def serpapi_key_error : String :=
  "Please set the SERPAPI_API_KEY environment variable."

/-- Query augmentation of google_search (src/utils/helpers.py lines 36-37):
append the institution keyword unless the query already mentions it. -/
def augmentQuery (addContext : Bool) (query : String) : String :=
  if addContext ∧ ¬ containsLower "cmu-africa" query then
    query ++ " cmu-africa"
  else query

/-- First collection loop of google_search (src/utils/helpers.py lines
53-63): walk the ranked links, fetch each page, keep non-empty
domain-relevant snippets, and break once numResults are held.  The break
test runs after the conditional append, exactly as in the source. -/
def collectRelevant (fetch : String → String) (numResults : Nat) :
    List String → List String → List String
  | [], snippets => snippets
  | link :: rest, snippets =>
    let snippet := fetch link
    let snippets' :=
      if snippet ≠ "" ∧ is_cmu_africa_relevant snippet then snippets ++ [snippet]
      else snippets
    if numResults ≤ snippets'.length then snippets'
    else collectRelevant fetch numResults rest snippets'

/-- Second collection loop of google_search (src/utils/helpers.py lines
66-73): walk the same ranked links again without the relevance filter,
appending non-empty snippets not already collected, breaking at the top of
each iteration once numResults are held. -/
def backfill (fetch : String → String) (numResults : Nat) :
    List String → List String → List String
  | [], snippets => snippets
  | link :: rest, snippets =>
    if numResults ≤ snippets.length then snippets
    else
      let snippet := fetch link
      let snippets' :=
        if snippet ≠ "" ∧ snippet ∉ snippets then snippets ++ [snippet]
        else snippets
      backfill fetch numResults rest snippets'

/-- The snippet list google_search collects from the fetched ranked links
(src/utils/helpers.py lines 51-73): the relevance-filtered pass, backfilled
by the unfiltered pass when it fell short of numResults. -/
def googleSearchSnippets (fetch : String → String) (numResults : Nat)
    (links : List String) : List String :=
  let snippets := collectRelevant fetch numResults links []
  if snippets.length < numResults then backfill fetch numResults links snippets
  else snippets

/-- google_search (src/utils/helpers.py lines 19-75).  apiKey is the
SERPAPI_API_KEY environment value (none when unset; Python treats a blank
value the same as an unset one).  provider maps the issued query and the
requested result count to the ranked organic result links; fetch is
extract_page_text, whose internal try/except turns any fetch error into "".
The call raises (returns an error) only on a missing credential; otherwise
it returns the collected snippets joined by blank lines. -/
def google_search (apiKey : Option String) (query : String) (numResults : Nat)
    (addContext : Bool) (provider : String → Nat → List String)
    (fetch : String → String) : Except String String :=
  if apiKey.getD "" = "" then .error serpapi_key_error
  else
    let links := provider (augmentQuery addContext query) (numResults * 2)
    .ok (String.intercalate "\n\n" (googleSearchSnippets fetch numResults links))

/-! ### src/core/bot.py -/

/-- A langchain Document as the pipeline uses it: page content plus the
source entry of its metadata (src/core/bot.py lines 117-120). -/
structure Doc where
  page_content : String
  source : String
deriving DecidableEq

/-- One result dictionary yielded by Bot.ask_question, and likewise the
dictionary a chain invocation returns: the answer entry (absent entries are
read with default "" at src/core/bot.py line 109), the source_documents
entry, and the fallback_used entry (present only on the fallback path). -/
structure AskResult where
  answer : Option String
  source_documents : List Doc
  fallback_used : Option Bool
deriving DecidableEq

/-- Which input key the chain invocation uses (src/core/bot.py lines
102-106): question for a ConversationalRetrieval chain, input otherwise. -/
inductive InputKey
  | question
  | input
deriving DecidableEq

/-- A retrieval-generation chain as ask_question consumes it: whether its
runtime type name mentions ConversationalRetrieval, and its invoke
behaviour.  An error value stands for a raised Python exception. -/
structure Chain where
  isConversationalRetrieval : Bool
  invoke : InputKey → String → Except String AskResult

/-- The input key ask_question selects for a chain
(src/core/bot.py lines 102-106). -/
def chainInputKey (c : Chain) : InputKey :=
  if c.isConversationalRetrieval then .question else .input

/-- The ad-hoc prompt of the fallback path (src/core/bot.py line 114). -/
def fallback_prompt (googleContext question : String) : String :=
  "Use the information below to answer the user's question.\n\nContext:\n"
    ++ googleContext ++ "\n\nQuestion: " ++ question

/-- How many collaborator calls one ask_question invocation made: chain
invocations, fallback web searches, and direct generation calls. -/
structure Trace where
  chainCalls : Nat
  searchCalls : Nat
  genCalls : Nat
deriving DecidableEq

/-- The environment of one Bot instance as ask_question reads it: the
registered-chain lookup of the QAChainManager, the current default chain,
the SERPAPI credential with the search provider and page fetcher consumed
by google_search, and the direct chat-model call self.llm.invoke. -/
structure AskEnv where
  get_chain : String → Option Chain
  current_chain : Option Chain
  serpapi_key : Option String
  provider : String → Nat → List String
  fetch : String → String
  llm_invoke : String → Except String String

/-- Chain resolution of ask_question (src/core/bot.py line 92): the chain
registered under the requested name, or else the current default chain. -/
def resolveChain (env : AskEnv) (chain_name : String) : Option Chain :=
  match env.get_chain chain_name with
  | some c => some c
  | none => env.current_chain

/-- The try block of ask_question (src/core/bot.py lines 101-128): invoke
the chain, judge the extracted answer, and on an unavailable answer run the
fallback search and a direct generation call.  The result carries the value
the block yields, or the exception it raises, together with the trace of
collaborator calls it performed. -/
def askTryBody (env : AskEnv) (chain : Chain) (question : String) :
    Except String AskResult × Trace :=
  match chain.invoke (chainInputKey chain) question with
  | .error e => (.error e, ⟨1, 0, 0⟩)
  | .ok result =>
    if is_answer_unavailable (result.answer.getD "") then
      match google_search env.serpapi_key question 3 true env.provider env.fetch with
      | .error e => (.error e, ⟨1, 1, 0⟩)
      | .ok googleContext =>
        match env.llm_invoke (fallback_prompt googleContext question) with
        | .error e => (.error e, ⟨1, 1, 1⟩)
        | .ok fallbackAnswer =>
          (.ok { answer := some fallbackAnswer,
                 source_documents := [⟨fallbackAnswer, "www.google.com, Google Search"⟩],
                 fallback_used := some true }, ⟨1, 1, 1⟩)
    else (.ok result, ⟨1, 0, 0⟩)

/-- Bot.ask_question (src/core/bot.py lines 88-135).  The generator yields
exactly one dictionary per invocation; the embedding returns that
dictionary together with the collaborator-call trace.  A missing chain
yields the fixed no-chain dictionary; an exception inside the try block is
caught and converted into the fixed error dictionary. -/
def ask_question (env : AskEnv) (question : String) (chain_name : String) :
    AskResult × Trace :=
  match resolveChain env chain_name with
  | none =>
    ({ answer := some "No QA chain available. Please run setup first.",
       source_documents := [], fallback_used := none }, ⟨0, 0, 0⟩)
  | some chain =>
    match askTryBody env chain question with
    | (.ok r, t) => (r, t)
    | (.error _, t) =>
      ({ answer := some "Sorry, I encountered an error processing your question.",
         source_documents := [], fallback_used := none }, t)

/-- The mutable fields of a Bot instance that setup_from_vectorstore
touches: the current memory, the current chain, and the vectorstore handle
of its VectorStoreManager. -/
structure BotState (M V : Type) where
  current_memory : Option M
  current_chain : Option Chain
  vectorstore : Option V

/-- The collaborators of setup_from_vectorstore: the memory factory
(MemoryManager.create_memory), FAISS.load_local as called by
VectorStoreManager.load_vectorstore, as_retriever on a loaded store, and
QAChainManager.create_conversational_chain.  Error values stand for raised
exceptions; create_conversational_chain may also return none. -/
structure SetupEnv (M V R : Type) where
  create_memory : String → Except String M
  faiss_load_local : String → Except String V
  as_retriever : V → R
  create_conversational_chain : R → M → Except String (Option Chain)

/-- VectorStoreManager.load_vectorstore (src/core/store_manager.py lines
64-73): on a successful FAISS load, store the handle and return true; on
any exception, leave the handle unchanged and return false. -/
def load_vectorstore (faiss_load : String → Except String V)
    (vectorstore : Option V) (path : String) : Bool × Option V :=
  match faiss_load path with
  | .ok v => (true, some v)
  | .error _ => (false, vectorstore)

/-- VectorStoreManager.get_retriever (src/core/store_manager.py lines
75-82): raise when no vectorstore is loaded, otherwise wrap it. -/
def get_retriever (as_retriever : V → R) (vectorstore : Option V) :
    Except String R :=
  match vectorstore with
  | none => .error "Vector store not initialized!"
  | some v => .ok (as_retriever v)

/-- Bot.setup_from_vectorstore (src/core/bot.py lines 63-86): replace the
memory, load the store, build and install the chain; return success.  Any
collaborator exception is caught and turns into a false return that keeps
the state as mutated so far. -/
def setup_from_vectorstore (env : SetupEnv M V R) (st : BotState M V)
    (store_path : String) (memory_type : String) : Bool × BotState M V :=
  match env.create_memory memory_type with
  | .error _ => (false, st)
  | .ok mem =>
    let st1 : BotState M V := { st with current_memory := some mem }
    match load_vectorstore env.faiss_load_local st1.vectorstore store_path with
    | (false, vs) => (false, { st1 with vectorstore := vs })
    | (true, vs) =>
      let st2 : BotState M V := { st1 with vectorstore := vs }
      match get_retriever env.as_retriever st2.vectorstore with
      | .error _ => (false, st2)
      | .ok retriever =>
        match env.create_conversational_chain retriever mem with
        | .error _ => (false, st2)
        | .ok chainOpt =>
          (chainOpt.isSome, { st2 with current_chain := chainOpt })

/-! ### src/core/document_processor.py -/

/-- Splitting at the first occurrence of the separator ", ": none when the
line holds no separator, otherwise the text before and after the first
occurrence. -/
def splitFirstCS : List Char → Option (List Char × List Char)
  | [] => none
  | ',' :: ' ' :: rest => some ([], rest)
  | c :: rest => (splitFirstCS rest).map (fun p => (c :: p.1, p.2))

/-- Embeds Python line.split(", "): cut at every occurrence of the
two-character separator, scanning left to right.  The accumulator holds the
reversed characters of the piece being scanned. -/
def splitAuxCS : List Char → List Char → List (List Char)
  | [], acc => [acc.reverse]
  | ',' :: ' ' :: rest, acc => acc.reverse :: splitAuxCS rest []
  | c :: rest, acc => splitAuxCS rest (c :: acc)

/-- Python line.split(", "). -/
def splitOnCS (cs : List Char) : List (List Char) :=
  splitAuxCS cs []

/-- Embeds Python ", ".join(parts). -/
def intercalateCS : List (List Char) → List Char
  | [] => []
  | [x] => x
  | x :: xs => x ++ ',' :: ' ' :: intercalateCS xs

/-- One parsed source descriptor
(src/core/document_processor.py line 94). -/
structure SourceDesc where
  type : List Char
  path : List Char
deriving DecidableEq

/-- The supported source types
(src/core/document_processor.py line 32). -/
def supported_types : List (List Char) :=
  ["url".toList, "file".toList]

/-- Per-line parsing of DocumentProcessor.load_sources_from_file
(src/core/document_processor.py lines 81-102): strip the line; skip it when
it is empty or starts with the comment mark; split on ", "; skip it when
the split yields fewer than two parts; take the stripped first part as the
type and the stripped rejoin of the remaining parts as the path; keep the
descriptor only for a supported type. -/
def parseSourceLine (line : String) : Option SourceDesc :=
  let l := trimChars line.toList
  if l = [] ∨ l.head? = some '#' then none
  else
    match splitOnCS l with
    | [] => none
    | [_] => none
    | t :: rest =>
      let source_type := trimChars t
      let path := trimChars (intercalateCS rest)
      if source_type ∈ supported_types then some ⟨source_type, path⟩ else none

/-- The specification's wording of the per-line rule, for comparison with
parseSourceLine: a well-formed line is split at the FIRST separator
occurrence into a supported type and a path that may itself contain further
separators; every other line is skipped. -/
def specParseLine (line : String) : Option SourceDesc :=
  let l := trimChars line.toList
  if l = [] ∨ l.head? = some '#' then none
  else
    match splitFirstCS l with
    | none => none
    | some (t, p) =>
      let source_type := trimChars t
      let path := trimChars p
      if source_type ∈ supported_types then some ⟨source_type, path⟩ else none

/-- DocumentProcessor.load_sources_from_file
(src/core/document_processor.py lines 76-106) on the lines of the file:
one descriptor per accepted line, in file order. -/
def load_sources_from_file (lines : List String) : List SourceDesc :=
  lines.filterMap parseSourceLine

/-! ### Concrete instances used to evaluate the theorems on closed inputs -/

/-- A chain whose invocation succeeds with an answer the sufficiency judge
rejects. -/
def chainUnavailable : Chain :=
  { isConversationalRetrieval := true,
    invoke := fun _ _ =>
      .ok { answer := some "cannot answer", source_documents := [], fallback_used := none } }

/-- An environment on which the fallback path of ask_question completes. -/
def envFallback : AskEnv :=
  { get_chain := fun _ => none,
    current_chain := some chainUnavailable,
    serpapi_key := some "k",
    provider := fun _ _ => [],
    fetch := fun _ => "",
    llm_invoke := fun _ => .ok "Generated answer" }

/-- A chain whose invocation raises. -/
def chainRaising : Chain :=
  { isConversationalRetrieval := false, invoke := fun _ _ => .error "boom" }

/-- An environment on which the chain invocation of ask_question raises. -/
def envRaising : AskEnv :=
  { get_chain := fun _ => none,
    current_chain := some chainRaising,
    serpapi_key := none,
    provider := fun _ _ => [],
    fetch := fun _ => "",
    llm_invoke := fun _ => .error "no model" }

/-- An environment with no registered chain and no current chain. -/
def envNoChain : AskEnv :=
  { get_chain := fun _ => none,
    current_chain := none,
    serpapi_key := none,
    provider := fun _ _ => [],
    fetch := fun _ => "",
    llm_invoke := fun _ => .error "no model" }

/-- A page fetcher on which the relevance pass of google_search collects one
snippet out of three ranked links: one irrelevant page, one failed fetch,
one relevant page. -/
def fetchSample : String → String := fun link =>
  if link = "a" then "hello" else if link = "c" then "rwanda news" else ""

/-- The ranked links paired with fetchSample. -/
def linksSample : List String := ["a", "b", "c"]

/-- A setup environment whose FAISS index load raises. -/
def setupEnvFailingLoad : SetupEnv Unit Unit Unit :=
  { create_memory := fun _ => .ok (),
    faiss_load_local := fun _ => .error "load failed",
    as_retriever := fun _ => (),
    create_conversational_chain := fun _ _ => .ok none }

/-- A Bot state before any successful setup. -/
def botStEmpty : BotState Unit Unit :=
  { current_memory := none, current_chain := none, vectorstore := none }

/-! ### Substring bridge lemmas -/

theorem isPrefixSeq_iff : ∀ n h : List Char, isPrefixSeq n h = true ↔ ∃ t, h = n ++ t := by
  intro n
  induction n with
  | nil => intro h; simp [isPrefixSeq]
  | cons a as ih =>
    intro h
    cases h with
    | nil => simp [isPrefixSeq]
    | cons b bs =>
      simp only [isPrefixSeq, Bool.and_eq_true, beq_iff_eq, ih, List.cons_append]
      constructor
      · rintro ⟨rfl, t, rfl⟩
        exact ⟨t, rfl⟩
      · rintro ⟨t, ht⟩
        injection ht with h1 h2
        exact ⟨h1.symm, t, h2⟩

theorem containsSeq_iff : ∀ n h : List Char, containsSeq n h = true ↔ ∃ pre post, h = pre ++ n ++ post := by
  intro n h
  induction h with
  | nil =>
    constructor
    · intro hh
      cases n with
      | nil => exact ⟨[], [], rfl⟩
      | cons c cs => simp [containsSeq] at hh
    · rintro ⟨pre, post, hh⟩
      cases n with
      | nil => simp [containsSeq]
      | cons c cs =>
        exact absurd hh.symm (by simp)
  | cons c rest ih =>
    simp only [containsSeq, Bool.or_eq_true, isPrefixSeq_iff, ih]
    constructor
    · rintro (⟨t, ht⟩ | ⟨pre, post, hp⟩)
      · exact ⟨[], t, by simp [ht]⟩
      · exact ⟨c :: pre, post, by simp [hp]⟩
    · rintro ⟨pre, post, hp⟩
      cases pre with
      | nil => exact Or.inl ⟨post, by simpa using hp⟩
      | cons d pre' =>
        injection hp with h1 h2
        exact Or.inr ⟨pre', post, h2⟩

theorem containsLower_iff (needle hay : String) :
    containsLower needle hay = true ↔
      ∃ pre post, lowerList hay.toList = pre ++ needle.toList ++ post :=
  containsSeq_iff _ _

/-! ### C3 and C10: the keyword heuristics -/

/-- C3: is_answer_unavailable returns true exactly for the texts containing
at least one of the fixed trigger phrases as a case-insensitive substring
(the phrases are lowercase and are matched inside the lowercased answer),
and false for texts containing none; one matching phrase suffices since the
match is an existential over the phrase list. -/
theorem c3_is_answer_unavailable_iff (answer : String) :
    is_answer_unavailable answer = true ↔
      ∃ kw ∈ unavailable_keywords, ∃ pre post,
        lowerList answer.toList = pre ++ kw.toList ++ post := by
  simp only [is_answer_unavailable, List.any_eq_true, containsLower_iff]

/-- C10: the domain relevance filter is a bare case-insensitive substring
test over the keywords rwanda, kigali, rw and cmu-africa; in particular any
text whose lowercasing contains the two-letter sequence rw anywhere passes
the filter. -/
theorem c10_relevance_substring (text : String) :
    (is_cmu_africa_relevant text = true ↔
       ∃ kw ∈ cmu_africa_keywords, ∃ pre post,
         lowerList text.toList = pre ++ kw.toList ++ post)
    ∧ ((∃ pre post, lowerList text.toList = pre ++ "rw".toList ++ post) →
        is_cmu_africa_relevant text = true) := by
  have hiff : is_cmu_africa_relevant text = true ↔
      ∃ kw ∈ cmu_africa_keywords, ∃ pre post,
        lowerList text.toList = pre ++ kw.toList ++ post := by
    simp only [is_cmu_africa_relevant, List.any_eq_true, containsLower_iff]
  exact ⟨hiff, fun h => hiff.mpr ⟨"rw", by simp [cmu_africa_keywords], h⟩⟩

/-! ### Lemmas on the two collection passes of google_search -/

theorem collectRelevant_length (fetch : String → String) (n : Nat) :
    ∀ l acc : List String, acc.length < n → (collectRelevant fetch n l acc).length ≤ n := by
  intro l
  induction l with
  | nil => intro acc h; simpa [collectRelevant] using Nat.le_of_lt h
  | cons link rest ih =>
    intro acc h
    simp only [collectRelevant]
    by_cases hrel : fetch link ≠ "" ∧ is_cmu_africa_relevant (fetch link)
    · rw [if_pos hrel]
      by_cases hb : n ≤ (acc ++ [fetch link]).length
      · rw [if_pos hb]
        simp
        omega
      · rw [if_neg hb]
        refine ih _ ?_
        simp at hb ⊢
        omega
    · rw [if_neg hrel]
      by_cases hb : n ≤ acc.length
      · omega
      · rw [if_neg hb]
        exact ih _ (by omega)

theorem collectRelevant_nonempty (fetch : String → String) (n : Nat) :
    ∀ l acc : List String, (∀ s ∈ acc, s ≠ "") →
      ∀ s ∈ collectRelevant fetch n l acc, s ≠ "" := by
  intro l
  induction l with
  | nil => intro acc hacc; simpa [collectRelevant] using hacc
  | cons link rest ih =>
    intro acc hacc
    have hstep : ∀ acc' : List String, (∀ s ∈ acc', s ≠ "") →
        ∀ s ∈ (if n ≤ acc'.length then acc' else collectRelevant fetch n rest acc'), s ≠ "" := by
      intro acc' hacc'
      by_cases hb : n ≤ acc'.length
      · rw [if_pos hb]; exact hacc'
      · rw [if_neg hb]; exact ih acc' hacc'
    simp only [collectRelevant]
    by_cases hrel : fetch link ≠ "" ∧ is_cmu_africa_relevant (fetch link)
    · rw [if_pos hrel]
      refine hstep _ ?_
      intro s hs
      rcases List.mem_append.mp hs with h | h
      · exact hacc s h
      · simpa using (List.mem_singleton.mp h) ▸ hrel.1
    · rw [if_neg hrel]
      exact hstep _ hacc

theorem collectRelevant_append (fetch : String → String) (n : Nat) :
    ∀ l₁ l₂ acc : List String, acc.length < n →
      n ≤ (collectRelevant fetch n l₁ acc).length →
      collectRelevant fetch n (l₁ ++ l₂) acc = collectRelevant fetch n l₁ acc := by
  intro l₁
  induction l₁ with
  | nil =>
    intro l₂ acc hlt hge
    simp [collectRelevant] at hge
    omega
  | cons link rest ih =>
    intro l₂ acc hlt hge
    rw [List.cons_append]
    simp only [collectRelevant] at hge ⊢
    by_cases hrel : fetch link ≠ "" ∧ is_cmu_africa_relevant (fetch link)
    · simp only [if_pos hrel] at hge ⊢
      by_cases hb : n ≤ (acc ++ [fetch link]).length
      · simp only [if_pos hb]
      · simp only [if_neg hb] at hge ⊢
        exact ih l₂ _ (by simp at hb ⊢; omega) hge
    · simp only [if_neg hrel] at hge ⊢
      by_cases hb : n ≤ acc.length
      · exact absurd hb (by omega)
      · simp only [if_neg hb] at hge ⊢
        exact ih l₂ _ (by omega) hge

theorem collectRelevant_filter (fetch : String → String) (n : Nat) :
    ∀ l acc : List String, acc.length < n →
      collectRelevant fetch n (l.filter fun x => fetch x ≠ "") acc =
        collectRelevant fetch n l acc := by
  intro l
  induction l with
  | nil => intro acc _; rfl
  | cons link rest ih =>
    intro acc hlt
    by_cases hfl : fetch link = ""
    · have hdrop : (link :: rest).filter (fun x => fetch x ≠ "") =
          rest.filter (fun x => fetch x ≠ "") := by
        simp [List.filter_cons, hfl]
      have hrel : ¬ (fetch link ≠ "" ∧ is_cmu_africa_relevant (fetch link)) := by
        simp [hfl]
      rw [hdrop, ih acc hlt]
      conv_rhs => rw [collectRelevant]
      rw [if_neg hrel, if_neg (by omega : ¬ n ≤ acc.length)]
    · have hkeep : (link :: rest).filter (fun x => fetch x ≠ "") =
          link :: rest.filter (fun x => fetch x ≠ "") := by
        simp [List.filter_cons, hfl]
      rw [hkeep]
      simp only [collectRelevant]
      by_cases hrel : fetch link ≠ "" ∧ is_cmu_africa_relevant (fetch link)
      · rw [if_pos hrel]
        by_cases hb : n ≤ (acc ++ [fetch link]).length
        · rw [if_pos hb, if_pos hb]
        · rw [if_neg hb, if_neg hb]
          exact ih _ (by simp at hb ⊢; omega)
      · rw [if_neg hrel]
        rw [if_neg (by omega : ¬ n ≤ acc.length), if_neg (by omega : ¬ n ≤ acc.length)]
        exact ih _ hlt

theorem backfill_extends (fetch : String → String) (n : Nat) :
    ∀ l acc : List String, ∃ extra,
      backfill fetch n l acc = acc ++ extra
      ∧ extra.Sublist (l.map fetch)
      ∧ extra.Nodup
      ∧ ∀ s ∈ extra, s ∉ acc ∧ s ≠ "" := by
  intro l
  induction l with
  | nil => intro acc; exact ⟨[], by simp [backfill]⟩
  | cons link rest ih =>
    intro acc
    by_cases hb : n ≤ acc.length
    · refine ⟨[], ?_, by simp, by simp, by simp⟩
      simp only [backfill]
      rw [if_pos hb]
      simp
    · by_cases hcond : fetch link ≠ "" ∧ fetch link ∉ acc
      · obtain ⟨extra, heq, hsub, hnd, hmem⟩ := ih (acc ++ [fetch link])
        refine ⟨fetch link :: extra, ?_, ?_, ?_, ?_⟩
        · simp only [backfill]
          rw [if_neg hb, if_pos hcond, heq]
          simp
        · rw [List.map_cons]
          exact List.Sublist.cons₂ _ hsub
        · refine List.nodup_cons.mpr ⟨?_, hnd⟩
          intro hmem'
          have := (hmem _ hmem').1
          simp at this
        · intro s hs
          rcases List.mem_cons.mp hs with rfl | hs'
          · exact ⟨hcond.2, hcond.1⟩
          · have := hmem s hs'
            refine ⟨fun hin => this.1 (by simp [hin]), this.2⟩
      · obtain ⟨extra, heq, hsub, hnd, hmem⟩ := ih acc
        refine ⟨extra, ?_, ?_, hnd, hmem⟩
        · simp only [backfill]
          rw [if_neg hb, if_neg hcond]
          exact heq
        · rw [List.map_cons]
          exact List.Sublist.cons _ hsub

theorem backfill_length (fetch : String → String) (n : Nat) :
    ∀ l acc : List String, acc.length ≤ n → (backfill fetch n l acc).length ≤ n := by
  intro l
  induction l with
  | nil => intro acc h; simpa [backfill] using h
  | cons link rest ih =>
    intro acc h
    simp only [backfill]
    by_cases hb : n ≤ acc.length
    · rw [if_pos hb]; exact h
    · rw [if_neg hb]
      by_cases hcond : fetch link ≠ "" ∧ fetch link ∉ acc
      · rw [if_pos hcond]
        exact ih _ (by simp; omega)
      · rw [if_neg hcond]
        exact ih _ h

theorem backfill_exhaust (fetch : String → String) (n : Nat) :
    ∀ l acc : List String, (backfill fetch n l acc).length < n →
      ∀ x ∈ l, fetch x = "" ∨ fetch x ∈ backfill fetch n l acc := by
  intro l
  induction l with
  | nil => intro acc _ x hx; simp at hx
  | cons link rest ih =>
    intro acc hlen x hx
    by_cases hb : n ≤ acc.length
    · exfalso
      have : backfill fetch n (link :: rest) acc = acc := by
        simp only [backfill]; rw [if_pos hb]
      rw [this] at hlen
      omega
    · have hstep : ∀ acc', backfill fetch n (link :: rest) acc = backfill fetch n rest acc' →
          acc' ⊆ backfill fetch n (link :: rest) acc := by
        intro acc' heq
        obtain ⟨extra, he, -, -, -⟩ := backfill_extends fetch n rest acc'
        rw [heq, he]
        exact List.subset_append_left _ _
      by_cases hcond : fetch link ≠ "" ∧ fetch link ∉ acc
      · have hred : backfill fetch n (link :: rest) acc =
            backfill fetch n rest (acc ++ [fetch link]) := by
          simp only [backfill]; rw [if_neg hb, if_pos hcond]
        rcases List.mem_cons.mp hx with rfl | hx'
        · refine Or.inr ?_
          exact hstep _ hred (by simp)
        · rw [hred] at hlen ⊢
          exact ih _ hlen x hx'
      · have hred : backfill fetch n (link :: rest) acc = backfill fetch n rest acc := by
          simp only [backfill]; rw [if_neg hb, if_neg hcond]
        rcases List.mem_cons.mp hx with rfl | hx'
        · by_cases hfl : fetch x = ""
          · exact Or.inl hfl
          · refine Or.inr ?_
            have hin : fetch x ∈ acc := by
              by_contra hnin
              exact hcond ⟨hfl, hnin⟩
            exact hstep _ hred hin
        · rw [hred] at hlen ⊢
          exact ih _ hlen x hx'

theorem backfill_filter (fetch : String → String) (n : Nat) :
    ∀ l acc : List String,
      backfill fetch n (l.filter fun x => fetch x ≠ "") acc = backfill fetch n l acc := by
  intro l
  induction l with
  | nil => intro acc; rfl
  | cons link rest ih =>
    intro acc
    by_cases hb : n ≤ acc.length
    · have hacc : ∀ l' : List String, backfill fetch n l' acc = acc := by
        intro l'
        cases l' with
        | nil => rfl
        | cons y ys =>
          simp only [backfill]
          rw [if_pos hb]
      rw [hacc, hacc]
    · by_cases hfl : fetch link = ""
      · have hdrop : (link :: rest).filter (fun x => fetch x ≠ "") =
            rest.filter (fun x => fetch x ≠ "") := by simp [List.filter_cons, hfl]
        have hcond : ¬ (fetch link ≠ "" ∧ fetch link ∉ acc) := by simp [hfl]
        have hstep : backfill fetch n (link :: rest) acc = backfill fetch n rest acc := by
          simp only [backfill]
          rw [if_neg hb, if_neg hcond]
        rw [hdrop, ih, hstep]
      · have hkeep : (link :: rest).filter (fun x => fetch x ≠ "") =
            link :: rest.filter (fun x => fetch x ≠ "") := by simp [List.filter_cons, hfl]
        rw [hkeep]
        simp only [backfill]
        rw [if_neg hb, if_neg hb]
        by_cases hcond : fetch link ≠ "" ∧ fetch link ∉ acc
        · rw [if_pos hcond, ih]
        · rw [if_neg hcond, ih]

theorem googleSearchSnippets_nonempty (fetch : String → String) (n : Nat)
    (links : List String) : ∀ s ∈ googleSearchSnippets fetch n links, s ≠ "" := by
  have h1 : ∀ s ∈ collectRelevant fetch n links [], s ≠ "" :=
    collectRelevant_nonempty fetch n links [] (by simp)
  simp only [googleSearchSnippets]
  by_cases hc : (collectRelevant fetch n links []).length < n
  · rw [if_pos hc]
    obtain ⟨extra, heq, -, -, hmem⟩ := backfill_extends fetch n links (collectRelevant fetch n links [])
    rw [heq]
    intro s hs
    rcases List.mem_append.mp hs with h | h
    · exact h1 s h
    · exact (hmem s h).2
  · rw [if_neg hc]
    exact h1

theorem googleSearchSnippets_length (fetch : String → String) (n : Nat)
    (links : List String) (hn : 1 ≤ n) :
    (googleSearchSnippets fetch n links).length ≤ n := by
  simp only [googleSearchSnippets]
  by_cases hc : (collectRelevant fetch n links []).length < n
  · rw [if_pos hc]
    exact backfill_length fetch n links _ (by omega)
  · rw [if_neg hc]
    exact collectRelevant_length fetch n links [] (by simp; omega)

/-! ### C4, C5 and C9: the web fallback search -/

/-- C4 counterexample: the claim bounds the snippet count by numResults for
EVERY bound, but with numResults = 0 the first collection pass appends a
relevant snippet before testing the break condition, so the call returns
one snippet where the claim allows none. -/
theorem c4_counterexample :
    googleSearchSnippets (fun _ => "rwanda") 0 ["a"] = ["rwanda"]
    ∧ google_search (some "k") "q" 0 true (fun _ _ => ["a"]) (fun _ => "rwanda") =
        .ok "rwanda" := by
  constructor
  · rfl
  · rfl

/-- C4 (amended: the bound numResults must be at least 1; the break test of
the first pass runs only after an append, so numResults = 0 still yields
one snippet, see the counterexample): for every positive bound and a
present credential, search returns the collected snippets joined; at most
numResults snippets are collected, each non-empty, and once the first pass
reaches numResults on a prefix of the ranked results the remaining results
are never examined. -/
theorem c4_search_bounded (apiKey : Option String) (query : String)
    (addContext : Bool) (provider : String → Nat → List String)
    (fetch : String → String) (n : Nat) (hn : 1 ≤ n)
    (hkey : apiKey.getD "" ≠ "") :
    ∃ snippets,
      google_search apiKey query n addContext provider fetch =
        .ok (String.intercalate "\n\n" snippets)
      ∧ snippets = googleSearchSnippets fetch n (provider (augmentQuery addContext query) (n * 2))
      ∧ snippets.length ≤ n
      ∧ (∀ s ∈ snippets, s ≠ "")
      ∧ ∀ l₁ l₂, provider (augmentQuery addContext query) (n * 2) = l₁ ++ l₂ →
          n ≤ (collectRelevant fetch n l₁ []).length →
          snippets = googleSearchSnippets fetch n l₁ := by
  refine ⟨googleSearchSnippets fetch n (provider (augmentQuery addContext query) (n * 2)),
    ?_, rfl, googleSearchSnippets_length _ _ _ hn, googleSearchSnippets_nonempty _ _ _, ?_⟩
  · simp only [google_search]
    rw [if_neg hkey]
  · intro l₁ l₂ hsplit hge
    have h1 : collectRelevant fetch n (provider (augmentQuery addContext query) (n * 2)) [] =
        collectRelevant fetch n l₁ [] := by
      rw [hsplit]
      exact collectRelevant_append fetch n l₁ l₂ [] (by simp; omega) hge
    simp only [googleSearchSnippets, h1]
    rw [if_neg (by omega), if_neg (by omega)]

/-- C5: when the relevance pass falls short of numResults, the second pass
appends, in the original ranked order (the appended block is a sublist of
the fetched snippets in rank order), only snippets not already collected,
deduplicated by exact text equality, until numResults snippets are held or
the results are exhausted (when still short, every fetched page either
errored to the empty string or its text is already included). -/
theorem c5_backfill_pass (fetch : String → String) (n : Nat) (links : List String)
    (hshort : (collectRelevant fetch n links []).length < n) :
    ∃ extra,
      googleSearchSnippets fetch n links = collectRelevant fetch n links [] ++ extra
      ∧ extra.Sublist (links.map fetch)
      ∧ extra.Nodup
      ∧ (∀ s ∈ extra, s ∉ collectRelevant fetch n links [] ∧ s ≠ "")
      ∧ (googleSearchSnippets fetch n links).length ≤ n
      ∧ ((googleSearchSnippets fetch n links).length < n →
          ∀ link ∈ links, fetch link = "" ∨ fetch link ∈ googleSearchSnippets fetch n links) := by
  have hred : googleSearchSnippets fetch n links =
      backfill fetch n links (collectRelevant fetch n links []) := by
    simp only [googleSearchSnippets]
    rw [if_pos hshort]
  obtain ⟨extra, heq, hsub, hnd, hmem⟩ :=
    backfill_extends fetch n links (collectRelevant fetch n links [])
  refine ⟨extra, by rw [hred, heq], hsub, hnd, hmem, ?_, ?_⟩
  · rw [hred]
    exact backfill_length fetch n links _ (by omega)
  · rw [hred]
    intro hlen link hl
    exact backfill_exhaust fetch n links _ hlen link hl

/-- C5 witness: on fetchSample and linksSample with numResults = 2 the
relevance pass collects one snippet and the second pass backfills. -/
theorem c5_backfill_pass_witness :
    ∃ extra,
      googleSearchSnippets fetchSample 2 linksSample =
        collectRelevant fetchSample 2 linksSample [] ++ extra
      ∧ extra.Sublist (linksSample.map fetchSample)
      ∧ extra.Nodup
      ∧ (∀ s ∈ extra, s ∉ collectRelevant fetchSample 2 linksSample [] ∧ s ≠ "")
      ∧ (googleSearchSnippets fetchSample 2 linksSample).length ≤ 2
      ∧ ((googleSearchSnippets fetchSample 2 linksSample).length < 2 →
          ∀ link ∈ linksSample, fetchSample link = "" ∨
            fetchSample link ∈ googleSearchSnippets fetchSample 2 linksSample) :=
  c5_backfill_pass fetchSample 2 linksSample (by decide)

/-- C9: search fails exactly when the configured credential is missing (a
blank value counts as unset, as in the source's truthiness test); every
collected snippet is non-empty, so a page whose fetch errored (modelled by
extract_page_text returning the empty string) is excluded; and for a
positive bound, dropping the erroring pages from the ranked results leaves
the collected snippets unchanged, so processing continues over the
remaining results. -/
theorem c9_failure_semantics (apiKey : Option String) (query : String) (n : Nat)
    (addContext : Bool) (provider : String → Nat → List String)
    (fetch : String → String) (links : List String) :
    ((∃ e, google_search apiKey query n addContext provider fetch = .error e) ↔
        apiKey.getD "" = "")
    ∧ (∀ s ∈ googleSearchSnippets fetch n links, s ≠ "")
    ∧ (1 ≤ n →
        googleSearchSnippets fetch n (links.filter fun x => fetch x ≠ "") =
          googleSearchSnippets fetch n links) := by
  refine ⟨⟨?_, ?_⟩, googleSearchSnippets_nonempty _ _ _, ?_⟩
  · rintro ⟨e, he⟩
    by_contra hk
    simp only [google_search, if_neg hk] at he
    exact Except.noConfusion he
  · intro hk
    exact ⟨serpapi_key_error, by simp only [google_search, if_pos hk]⟩
  · intro hn
    have h1 : collectRelevant fetch n (links.filter fun x => fetch x ≠ "") [] =
        collectRelevant fetch n links [] :=
      collectRelevant_filter fetch n links [] (by simp; omega)
    simp only [googleSearchSnippets, h1]
    by_cases hc : (collectRelevant fetch n links []).length < n
    · rw [if_pos hc, if_pos hc, backfill_filter]
    · rw [if_neg hc, if_neg hc]

/-! ### C1, C2, C7 and C8: the orchestrator -/

/-- C1: for a question whose chain answer the sufficiency judge rejects,
when the fallback search and the direct generation succeed, ask_question
performs exactly one fallback web search call and exactly one direct
generation call (the trace records one of each besides the chain call), and
yields the generated text as the answer with exactly one synthetic source
document whose metadata source is the search-engine tag, and with
fallback_used true. -/
theorem c1_fallback_path (env : AskEnv) (question chain_name : String)
    (chain : Chain) (result : AskResult) (googleContext generated : String)
    (hres : resolveChain env chain_name = some chain)
    (hinv : chain.invoke (chainInputKey chain) question = .ok result)
    (hjudge : is_answer_unavailable (result.answer.getD "") = true)
    (hsearch : google_search env.serpapi_key question 3 true env.provider env.fetch =
      .ok googleContext)
    (hgen : env.llm_invoke (fallback_prompt googleContext question) = .ok generated) :
    ask_question env question chain_name =
      ({ answer := some generated,
         source_documents := [⟨generated, "www.google.com, Google Search"⟩],
         fallback_used := some true }, ⟨1, 1, 1⟩) := by
  simp only [ask_question, hres, askTryBody, hinv, hjudge, hsearch, hgen, if_true]

/-- C1 witness: the fallback path evaluated on a concrete environment. -/
theorem c1_fallback_path_witness :
    ask_question envFallback "What is the capital?" "default" =
      ({ answer := some "Generated answer",
         source_documents := [⟨"Generated answer", "www.google.com, Google Search"⟩],
         fallback_used := some true }, ⟨1, 1, 1⟩) :=
  c1_fallback_path envFallback "What is the capital?" "default" chainUnavailable
    { answer := some "cannot answer", source_documents := [], fallback_used := none }
    "" "Generated answer" rfl rfl (by decide) rfl rfl

/-- C2: an exception raised inside the try block of ask_question (during
chain invocation or anywhere on the fallback path) is caught, and the call
yields exactly one result carrying the fixed error text and an empty source
list; no exception propagates (ask_question is a total function into one
result value). -/
theorem c2_error_containment (env : AskEnv) (question chain_name : String)
    (chain : Chain) (e : String) (t : Trace)
    (hres : resolveChain env chain_name = some chain)
    (hraise : askTryBody env chain question = (.error e, t)) :
    ask_question env question chain_name =
      ({ answer := some "Sorry, I encountered an error processing your question.",
         source_documents := [], fallback_used := none }, t) := by
  simp only [ask_question, hres, hraise]

/-- C2 witness: a chain whose invocation raises is converted into the fixed
error result. -/
theorem c2_error_containment_witness :
    ask_question envRaising "q" "default" =
      ({ answer := some "Sorry, I encountered an error processing your question.",
         source_documents := [], fallback_used := none }, ⟨1, 0, 0⟩) :=
  c2_error_containment envRaising "q" "default" chainRaising "boom" ⟨1, 0, 0⟩ rfl rfl

/-- C8: with no chain registered under the requested name and no current
default chain, ask_question yields exactly one result with the fixed
no-chain text and no sources, and the trace shows no chain invocation, no
web search and no generation call; nothing is raised. -/
theorem c8_no_chain (env : AskEnv) (question chain_name : String)
    (hget : env.get_chain chain_name = none)
    (hcur : env.current_chain = none) :
    ask_question env question chain_name =
      ({ answer := some "No QA chain available. Please run setup first.",
         source_documents := [], fallback_used := none }, ⟨0, 0, 0⟩) := by
  simp only [ask_question, resolveChain, hget, hcur]

/-- C8 witness: the no-chain result on a concrete chain-less environment. -/
theorem c8_no_chain_witness :
    ask_question envNoChain "q" "default" =
      ({ answer := some "No QA chain available. Please run setup first.",
         source_documents := [], fallback_used := none }, ⟨0, 0, 0⟩) :=
  c8_no_chain envNoChain "q" "default" rfl rfl

/-- C7: when the index load fails, setup_from_vectorstore returns false and
the resulting state keeps the previous chain field (and vectorstore handle)
unchanged; the only field already altered is the conversation memory, which
was replaced before the load was attempted. -/
theorem c7_setup_load_failure {M V R : Type} (env : SetupEnv M V R)
    (st : BotState M V) (store_path memory_type : String) (mem : M) (e : String)
    (hmem : env.create_memory memory_type = .ok mem)
    (hload : env.faiss_load_local store_path = .error e) :
    setup_from_vectorstore env st store_path memory_type =
      (false, { st with current_memory := some mem }) := by
  simp only [setup_from_vectorstore, hmem, load_vectorstore, hload]

/-- C7 witness: a failing load on a state with no prior chain returns false
and leaves the chain absent, with the memory replaced. -/
theorem c7_setup_load_failure_witness :
    setup_from_vectorstore setupEnvFailingLoad botStEmpty "./src/store" "window" =
      (false, { botStEmpty with current_memory := some () }) :=
  c7_setup_load_failure setupEnvFailingLoad botStEmpty "./src/store" "window" ()
    "load failed" rfl rfl

/-! ### C4 witness -/

/-- C4 witness: the amended bound theorem evaluated on a concrete provider
and fetcher. -/
theorem c4_search_bounded_witness :
    ∃ snippets,
      google_search (some "k") "q" 2 true (fun _ _ => linksSample) fetchSample =
        .ok (String.intercalate "\n\n" snippets)
      ∧ snippets = googleSearchSnippets fetchSample 2
          ((fun _ _ => linksSample : String → Nat → List String) (augmentQuery true "q") (2 * 2))
      ∧ snippets.length ≤ 2
      ∧ (∀ s ∈ snippets, s ≠ "")
      ∧ ∀ l₁ l₂,
          (fun _ _ => linksSample : String → Nat → List String) (augmentQuery true "q") (2 * 2) =
            l₁ ++ l₂ →
          2 ≤ (collectRelevant fetchSample 2 l₁ []).length →
          snippets = googleSearchSnippets fetchSample 2 l₁ :=
  c4_search_bounded (some "k") "q" true (fun _ _ => linksSample) fetchSample 2
    (by decide) (by decide)

/-! ### Lemmas on splitting at the comma-space separator -/

theorem splitFirstCS_length : ∀ cs a b, splitFirstCS cs = some (a, b) → b.length < cs.length := by
  intro cs
  induction cs using splitFirstCS.induct with
  | case1 => intro a b h; simp [splitFirstCS] at h
  | case2 rest =>
    intro a b h
    simp [splitFirstCS] at h
    simp [h.2.symm]
    omega
  | case3 c rest hne ih =>
    intro a b h
    rw [splitFirstCS.eq_3 c rest hne] at h
    cases hsp : splitFirstCS rest with
    | none => rw [hsp] at h; simp at h
    | some p =>
      rw [hsp] at h
      simp at h
      have := ih p.1 p.2 (by rw [hsp])
      simp [← h.2]
      omega

theorem splitFirstCS_sound : ∀ cs a b, splitFirstCS cs = some (a, b) →
    cs = a ++ ',' :: ' ' :: b := by
  intro cs
  induction cs using splitFirstCS.induct with
  | case1 => intro a b h; simp [splitFirstCS] at h
  | case2 rest =>
    intro a b h
    simp [splitFirstCS] at h
    obtain ⟨ha, hb⟩ := h
    subst ha
    subst hb
    rfl
  | case3 c rest hne ih =>
    intro a b h
    rw [splitFirstCS.eq_3 c rest hne] at h
    cases hsp : splitFirstCS rest with
    | none => rw [hsp] at h; simp at h
    | some p =>
      rw [hsp] at h
      simp at h
      obtain ⟨p1, p2⟩ := p
      have hr := ih p1 p2 hsp
      rw [← h.1, ← h.2]
      simp only [List.cons_append, List.cons.injEq, true_and]
      exact hr

theorem splitAuxCS_spec : ∀ cs acc, splitAuxCS cs acc =
    match splitFirstCS cs with
    | none => [acc.reverse ++ cs]
    | some (a, b) => (acc.reverse ++ a) :: splitAuxCS b [] := by
  intro cs
  induction cs using splitFirstCS.induct with
  | case1 => intro acc; simp [splitAuxCS, splitFirstCS]
  | case2 rest => intro acc; simp [splitAuxCS, splitFirstCS]
  | case3 c rest hne ih =>
    intro acc
    rw [splitAuxCS.eq_3 acc c rest hne, splitFirstCS.eq_3 c rest hne, ih (c :: acc)]
    cases hsp : splitFirstCS rest with
    | none => simp
    | some p =>
      obtain ⟨a, b⟩ := p
      simp

theorem splitOnCS_of_none {cs : List Char} (h : splitFirstCS cs = none) :
    splitOnCS cs = [cs] := by
  unfold splitOnCS
  rw [splitAuxCS_spec cs [], h]
  simp

theorem splitOnCS_of_some {cs a b : List Char} (h : splitFirstCS cs = some (a, b)) :
    splitOnCS cs = a :: splitOnCS b := by
  unfold splitOnCS
  rw [splitAuxCS_spec cs [], h]
  simp

theorem splitOnCS_ne_nil (cs : List Char) : splitOnCS cs ≠ [] := by
  cases hsp : splitFirstCS cs with
  | none => rw [splitOnCS_of_none hsp]; simp
  | some p =>
    obtain ⟨a, b⟩ := p
    rw [splitOnCS_of_some hsp]
    simp

theorem intercalateCS_splitOnCS (cs : List Char) :
    intercalateCS (splitOnCS cs) = cs := by
  have H : ∀ k, ∀ cs : List Char, cs.length ≤ k → intercalateCS (splitOnCS cs) = cs := by
    intro k
    induction k with
    | zero =>
      intro cs h
      have hnil : cs = [] := List.eq_nil_of_length_eq_zero (by omega)
      subst hnil
      rfl
    | succ k ih =>
      intro cs h
      cases hsp : splitFirstCS cs with
      | none => rw [splitOnCS_of_none hsp]; rfl
      | some p =>
        obtain ⟨a, b⟩ := p
        rw [splitOnCS_of_some hsp]
        have hlen : b.length < cs.length := splitFirstCS_length cs a b hsp
        have hb : intercalateCS (splitOnCS b) = b := ih b (by omega)
        obtain ⟨y, ys, hys⟩ : ∃ y ys, splitOnCS b = y :: ys := by
          cases hbs : splitOnCS b with
          | nil => exact absurd hbs (splitOnCS_ne_nil b)
          | cons y ys => exact ⟨y, ys, rfl⟩
        rw [hys]
        show a ++ ',' :: ' ' :: intercalateCS (y :: ys) = cs
        rw [← hys, hb]
        exact (splitFirstCS_sound cs a b hsp).symm
  exact H cs.length cs le_rfl

theorem parseSourceLine_eq_spec (line : String) :
    parseSourceLine line = specParseLine line := by
  unfold parseSourceLine specParseLine
  by_cases hskip : trimChars line.toList = [] ∨ (trimChars line.toList).head? = some '#'
  · rw [if_pos hskip, if_pos hskip]
  · rw [if_neg hskip, if_neg hskip]
    cases hsp : splitFirstCS (trimChars line.toList) with
    | none =>
      rw [splitOnCS_of_none hsp]
    | some p =>
      obtain ⟨t0, p0⟩ := p
      rw [splitOnCS_of_some hsp]
      obtain ⟨y, ys, hys⟩ : ∃ y ys, splitOnCS p0 = y :: ys := by
        cases hbs : splitOnCS p0 with
        | nil => exact absurd hbs (splitOnCS_ne_nil p0)
        | cons y ys => exact ⟨y, ys, rfl⟩
      rw [hys]
      show (if trimChars t0 ∈ supported_types then
              some { type := trimChars t0, path := trimChars (intercalateCS (y :: ys)) }
            else none) =
           (if trimChars t0 ∈ supported_types then
              some ({ type := trimChars t0, path := trimChars p0 } : SourceDesc)
            else none)
      rw [← hys, intercalateCS_splitOnCS]

/-! ### C6: the sources-file parser -/

/-- C6 counterexample: the claim splits a well-formed line from its path at
the first comma, but the code splits at the two-character separator
comma-space; a line whose single comma has no following space holds a
supported type and a path under the claim's reading, yet the code skips it
and returns no descriptor. -/
theorem c6_counterexample :
    load_sources_from_file ["url,notes.txt"] = []
    ∧ ([] : List SourceDesc) ≠ [⟨"url".toList, "notes.txt".toList⟩] := by
  constructor
  · rfl
  · decide

/-- C6 (amended: the separator is the two-character sequence comma-space,
as in the source's split(", "); a line without that two-character separator
is skipped even when it contains a bare comma): load_sources_from_file
returns exactly one descriptor per line accepted by the per-line rule, in
file order, where the rule strips the line, skips empty and comment lines,
splits at the FIRST comma-space occurrence (the path may itself contain
further separators), and keeps only supported types. -/
theorem c6_sources_per_line (lines : List String) :
    load_sources_from_file lines = lines.filterMap specParseLine := by
  unfold load_sources_from_file
  induction lines with
  | nil => rfl
  | cons l ls ih =>
    simp only [List.filterMap_cons, parseSourceLine_eq_spec, ih]

end AndrewPy
